import Mathlib

/-!
Shallow embedding of the geometric partitioning engine of `src/split.py`
(classes `SplitPoint` and `SplitStateManager`), together with proofs of the
specified properties.

Conventions of the embedding:
* Python integers are `Int`.
* `pygame.Rect(x, y, w, h)` is the structure `Rect` below; `right = x + w`
  and `bottom = y + h`, exactly as in pygame (pygame does not normalise
  negative sizes).
* A `SplitPoint` stores `pos` as the integer pair `(x, y)`; in the source it
  is the zero-size rectangle `pygame.Rect(x, y, 0, 0)`, whose fields `pos[0]`
  and `pos[1]` are the two coordinates.
* `Optional[Tuple[int, int]]` is `Option (Int × Int)`.
* The mutable list `self.split_points` is a `List SplitPoint`; the reference
  `self.selected_point` is modelled as an optional position in that list
  (Python compares points by object identity, and every list entry is a
  distinct object, so a position is a faithful stand-in for the reference).
-/

/-- Embeds class `SplitPoint` (src/split.py lines 10-15): a placed point with
optional horizontal and vertical cut intervals and a priority index. -/
structure SplitPoint where
  pos : Int × Int
  horizontal : Option (Int × Int)
  vertical : Option (Int × Int)
  index : Int
deriving Repr, DecidableEq

/-- Embeds `SplitPoint.toggle_horizontal` (lines 17-21). -/
def toggle_horizontal (width : Int) (p : SplitPoint) : SplitPoint :=
  match p.horizontal with
  | none => { p with horizontal := some (0, width) }
  | some _ => { p with horizontal := none }

/-- Embeds `SplitPoint.toggle_vertical` (lines 23-27). -/
def toggle_vertical (height : Int) (p : SplitPoint) : SplitPoint :=
  match p.vertical with
  | none => { p with vertical := some (0, height) }
  | some _ => { p with vertical := none }

/-- Embeds `SplitPoint.reset_bounds` (lines 29-33): each present interval is
reset to the full canvas span on its axis. -/
def reset_bounds (size : Int × Int) (p : SplitPoint) : SplitPoint :=
  { p with
    horizontal := p.horizontal.map fun _ => ((0 : Int), size.1)
    vertical := p.vertical.map fun _ => ((0 : Int), size.2) }

/-- Embeds the test `p.distance_to(q) <= r` built on `SplitPoint.distance_to`
(lines 35-36).  The source compares the real square root
sqrt((qx-px)^2+(qy-py)^2) with the integer radius `r`; over the integers this
holds exactly when `r` is nonnegative and the squared distance is at most
`r^2`.  (The float rounding of `math.sqrt` cannot cross an integer threshold
at the coordinate magnitudes of a screen, so the integer test is exact.) -/
def dist_le (p : SplitPoint) (q : Int × Int) (r : Int) : Bool :=
  decide (0 ≤ r) &&
    decide ((q.1 - p.pos.1) ^ 2 + (q.2 - p.pos.2) ^ 2 ≤ r ^ 2)

/-- Embeds `pygame.Rect`: position and (possibly zero or negative) size. -/
structure Rect where
  x : Int
  y : Int
  w : Int
  h : Int
deriving Repr, DecidableEq

/-- pygame `Rect.right`. -/
def Rect.right (r : Rect) : Int := r.x + r.w

/-- pygame `Rect.bottom`. -/
def Rect.bottom (r : Rect) : Int := r.y + r.h

/-- Embeds pygame `Rect.contains` (from pygame src_c/rect.c): rectangle `b`
is contained in `a` iff
a.x <= b.x and a.y <= b.y and a.right >= b.right and a.bottom >= b.bottom
and a.right > b.x and a.bottom > b.y. -/
def Rect.containsRect (a b : Rect) : Bool :=
  decide (a.x ≤ b.x) && decide (a.y ≤ b.y) &&
    decide (b.right ≤ a.right) && decide (b.bottom ≤ a.bottom) &&
    decide (b.x < a.right) && decide (b.y < a.bottom)

/-- The zero-size rectangle a `SplitPoint` stores as its `pos` field
(`pygame.Rect(point[0], point[1], 0, 0)`, line 12). -/
def posRect (q : Int × Int) : Rect := ⟨q.1, q.2, 0, 0⟩

/-- The containment test `box.contains(p.pos)` used in `calculate_boxes`
(line 169): the zero-size position rectangle of a point against a box. -/
def Rect.containsPos (a : Rect) (q : Int × Int) : Bool :=
  a.containsRect (posRect q)

/-- Embeds `SplitStateManager._calculate_bounds` (lines 105-111): one pass
over the candidate coordinates, tightening the lower bound to any candidate
strictly between the current lower bound and `bound`, else the upper bound to
any candidate strictly between `bound` and the current upper bound. -/
def calculate_bounds (bound lower_bound upper_bound : Int) :
    List Int → Int × Int
  | [] => (lower_bound, upper_bound)
  | ob :: rest =>
    if bound > ob ∧ ob > lower_bound then
      calculate_bounds bound ob upper_bound rest
    else if upper_bound > ob ∧ ob > bound then
      calculate_bounds bound lower_bound ob rest
    else
      calculate_bounds bound lower_bound upper_bound rest

/-- The comparison `key=lambda p: p.index` of the Python sorts: ascending
priority index. -/
def leIdx (p q : SplitPoint) : Prop := p.index ≤ q.index

instance : DecidableRel leIdx := fun p q => Int.decLe p.index q.index

instance : IsTotal SplitPoint leIdx := ⟨fun p q => Int.le_total p.index q.index⟩

instance : IsTrans SplitPoint leIdx := ⟨fun _ _ _ h1 h2 => Int.le_trans h1 h2⟩

/-- Embeds `sorted(points, key=lambda p: p.index)` (line 114 and line 138):
a stable sort by ascending priority index.  Python `sorted` is stable; the
Mathlib insertion sort below is stable as well. -/
def sortByIndex (pts : List SplitPoint) : List SplitPoint :=
  pts.insertionSort leIdx

/-- Embeds one iteration of the loop body of `calculate_line_rects`
(lines 116-132) for the point `p`, given the list `prior` of points processed
before it whose index differs from the index of `p`: reset the bounds, skip
clipping when `prior` is empty, otherwise clip the horizontal interval by the
x-coordinates of prior points with a vertical cut and the vertical interval
by the y-coordinates of prior points with a horizontal cut. -/
def clipPoint (size : Int × Int) (prior : List SplitPoint)
    (p : SplitPoint) : SplitPoint :=
  let p0 := reset_bounds size p
  if prior.length = 0 then p0
  else
    let p1 :=
      match p0.horizontal with
      | none => p0
      | some (lo, hi) =>
        { p0 with
          horizontal := some (calculate_bounds p0.pos.1 lo hi
            (((prior.filter fun q : SplitPoint => q.vertical.isSome).map
              fun q : SplitPoint => q.pos.1))) }
    match p1.vertical with
    | none => p1
    | some (lo, hi) =>
      { p1 with
        vertical := some (calculate_bounds p1.pos.2 lo hi
          (((prior.filter fun q : SplitPoint => q.horizontal.isSome).map
            fun q : SplitPoint => q.pos.2))) }

/-- Embeds the whole loop of `calculate_line_rects` run over the sorted list:
`done` holds the points already processed (and updated in place, as in the
source); each next point is clipped against the processed points whose index
differs from its own. -/
def lineRectsLoop (size : Int × Int) (done : List SplitPoint) :
    List SplitPoint → List SplitPoint
  | [] => []
  | p :: rest =>
    let p1 := clipPoint size (done.filter fun q => q.index ≠ p.index) p
    p1 :: lineRectsLoop size (done ++ [p1]) rest

/-- Embeds `SplitStateManager.calculate_line_rects` (lines 113-132).

The source iterates over `sorted(self.split_points, key=lambda p: p.index)`
and mutates each point in place, so the list `self.split_points` keeps its
original order and each point object ends up holding the value the sorted
loop computes for it.  In the sorted list, the points processed before `p`
whose index differs from that of `p` are exactly the points of strictly
smaller index (the sort is ascending), and clipping reads only the position
and cut presence of prior points, which processing preserves; the theorem
`lineRectsLoop_eq` below proves that the literal loop `lineRectsLoop` sends
each point `p` to precisely the value used here.  Hence the whole recompute
is this order-preserving map. -/
def calculate_line_rects (size : Int × Int) (pts : List SplitPoint) :
    List SplitPoint :=
  pts.map fun p =>
    clipPoint size ((sortByIndex pts).filter fun q => q.index < p.index) p

/-- Inner loop of `SplitStateManager.group_points` (lines 139-145), with the
accumulated groups split as `done ++ [cur]` (the source keeps `cur` as the
last entry of the group list, which is never empty). -/
def group_loop (done : List (List SplitPoint)) (cur : List SplitPoint) :
    List SplitPoint → List (List SplitPoint)
  | [] => done ++ [cur]
  | p :: rest =>
    match cur with
    | [] => group_loop done [p] rest
    | q :: _ =>
      if q.index = p.index then group_loop done (cur ++ [p]) rest
      else group_loop (done ++ [cur]) [p] rest

/-- Embeds `SplitStateManager.group_points` (lines 134-146): the points with
at least one active cut, sorted by ascending index, grouped into maximal runs
of equal index.  Starts from the single empty group `[[]]` as the source
does. -/
def group_points (pts : List SplitPoint) : List (List SplitPoint) :=
  group_loop [] []
    (sortByIndex (pts.filter fun p => p.horizontal.isSome || p.vertical.isSome))

/-- The successive slices of an axis walk: for the cut list `c1, ..., cn`
and start value `s`, the pairs `(s, c1), (c1, c2), ..., (c(n-1), cn)`.  This
is the indexed loop of `subdivide_box`
(`x1 = box[0] if ix == 0 else cuts[ix-1]; x2 = cuts[ix]`, lines 154-159). -/
def slices (start : Int) : List Int → List (Int × Int)
  | [] => []
  | c :: rest => (start, c) :: slices c rest

/-- Embeds `SplitStateManager.subdivide_box` (lines 148-161): collect the
x-coordinates of the points with a vertical cut and the y-coordinates of the
points with a horizontal cut (in list order, as the source does — note the
source does not sort them), append the right respectively bottom edge of the
box, and emit one rectangle per pair of an x-slice and a y-slice, x-major. -/
def subdivide_box (box : Rect) (points : List SplitPoint) : List Rect :=
  let vertical_cuts :=
    ((points.filter fun p => p.vertical.isSome).map fun p => p.pos.1)
      ++ [box.right]
  let horizontal_cuts :=
    ((points.filter fun p => p.horizontal.isSome).map fun p => p.pos.2)
      ++ [box.bottom]
  (slices box.x vertical_cuts).flatMap fun xs =>
    (slices box.y horizontal_cuts).map fun ys =>
      Rect.mk xs.1 ys.1 (xs.2 - xs.1) (ys.2 - ys.1)

/-- The points of a group used to subdivide a given box: the filter
`tuple(filter(lambda p: box.contains(p.pos), groups[i]))` of line 169. -/
def boxPoints (box : Rect) (g : List SplitPoint) : List SplitPoint :=
  g.filter fun p => box.containsPos p.pos

/-- Embeds `SplitStateManager.calculate_boxes` (lines 163-173): start from
the single full-canvas rectangle and, for each group in order, replace every
current rectangle by its subdivision along the cuts of the group points it
contains.  The source iterates over a snapshot of the list, removes each
processed rectangle (by value, but the pending originals always sit in front
of the freshly appended pieces, so exactly the processed rectangle is
removed) and appends its pieces; the result is this flat map, in the same
order. -/
def calculate_boxes (size : Int × Int) (pts : List SplitPoint) : List Rect :=
  (group_points pts).foldl
    (fun boxes g => boxes.flatMap fun box => subdivide_box box (boxPoints box g))
    [Rect.mk 0 0 size.1 size.2]

/-- Embeds the state of `SplitStateManager` (lines 39-47) that the
partitioning engine reads: canvas size, pick radius, point list and selected
point (as an optional position in the list; the `placing`/`deleting` mouse
flags touch no geometry and are omitted). -/
structure SplitState where
  screen_size : Int × Int
  dot_radius : Int
  split_points : List SplitPoint
  selected_point : Option Nat
deriving Repr, DecidableEq

/-- Replaces the point list by its recomputed version — the effect of a call
`self.calculate_line_rects()` on the state. -/
def recompute (s : SplitState) : SplitState :=
  { s with split_points := calculate_line_rects s.screen_size s.split_points }

/-- The scan `for p in self.split_points: if p.distance_to(point) <= self.dot_radius`
(lines 63-64 and 74-75): position of the first point within pick radius of
`q`, if any. -/
def findPoint (r : Int) (q : Int × Int) : List SplitPoint → Option Nat
  | [] => none
  | p :: rest =>
    if dist_le p q r then some 0 else (findPoint r q rest).map (· + 1)

/-- A freshly created point (`SplitPoint(current_point)`, lines 11-15):
no cuts, index 0. -/
def newPoint (q : Int × Int) : SplitPoint := ⟨q, none, none, 0⟩

/-- Embeds `SplitStateManager.add_point` (lines 61-70) with the mouse at `q`:
select the first point within pick radius if there is one, else append a new
point at `q` and select it.  (No recompute happens here.) -/
def add_point (q : Int × Int) (s : SplitState) : SplitState :=
  match findPoint s.dot_radius q s.split_points with
  | some i => { s with selected_point := some i }
  | none =>
    { s with
      split_points := s.split_points ++ [newPoint q]
      selected_point := some s.split_points.length }

/-- Embeds `SplitStateManager.delete_point` (lines 72-81) with the mouse at
`q`: remove the first point within pick radius if there is one, clearing the
selection when the removed point was the selected one (and shifting the
selected position past the removed entry, which is what keeping a reference
to the object does in the source); then recompute unconditionally. -/
def delete_point (q : Int × Int) (s : SplitState) : SplitState :=
  recompute <|
    match findPoint s.dot_radius q s.split_points with
    | none => s
    | some i =>
      { s with
        split_points := s.split_points.eraseIdx i
        selected_point :=
          match s.selected_point with
          | none => none
          | some j => if j = i then none else if i < j then some (j - 1) else some j }

/-- Applies `f` to the entry at position `i`, the effect of mutating the
object the reference `self.selected_point` points at. -/
def modifyAt (l : List SplitPoint) (i : Nat) (f : SplitPoint → SplitPoint) :
    List SplitPoint :=
  match l[i]? with
  | some a => l.set i (f a)
  | none => l

/-- Embeds `SplitStateManager.horizontal_split` (lines 83-86): no-op without
a selection, else toggle the horizontal cut of the selected point and
recompute. -/
def horizontal_split (s : SplitState) : SplitState :=
  match s.selected_point with
  | none => s
  | some i =>
    recompute { s with
      split_points := modifyAt s.split_points i (toggle_horizontal s.screen_size.1) }

/-- Embeds `SplitStateManager.vertical_split` (lines 88-91). -/
def vertical_split (s : SplitState) : SplitState :=
  match s.selected_point with
  | none => s
  | some i =>
    recompute { s with
      split_points := modifyAt s.split_points i (toggle_vertical s.screen_size.2) }

/-- Embeds `SplitStateManager.increment_index` (lines 93-97). -/
def increment_index (s : SplitState) : SplitState :=
  match s.selected_point with
  | none => s
  | some i =>
    recompute { s with
      split_points := modifyAt s.split_points i fun p => { p with index := p.index + 1 } }

/-- Embeds `SplitStateManager.decrement_index` (lines 99-103). -/
def decrement_index (s : SplitState) : SplitState :=
  match s.selected_point with
  | none => s
  | some i =>
    recompute { s with
      split_points := modifyAt s.split_points i fun p => { p with index := p.index - 1 } }

/-- The structural change commands of the model (spec section 4.1). -/
inductive Cmd where
  | place (q : Int × Int)
  | del (q : Int × Int)
  | hsplit
  | vsplit
  | inc
  | dec
deriving Repr, DecidableEq

/-- One command step of the model. -/
def step (c : Cmd) (s : SplitState) : SplitState :=
  match c with
  | .place q => add_point q s
  | .del q => delete_point q s
  | .hsplit => horizontal_split s
  | .vsplit => vertical_split s
  | .inc => increment_index s
  | .dec => decrement_index s

/-! Derived notions used to state the properties. -/

/-- The points that may clip the horizontal interval of `p`: strictly lower
priority index and an active vertical cut. -/
def hFilter (p q : SplitPoint) : Bool :=
  decide (q.index < p.index) && q.vertical.isSome

/-- The points that may clip the vertical interval of `p`: strictly lower
priority index and an active horizontal cut. -/
def vFilter (p q : SplitPoint) : Bool :=
  decide (q.index < p.index) && q.horizontal.isSome

/-- Closed form of the clipped horizontal interval of `p` in the point set
`pts`: lower end the maximum of `0` and the x-coordinates of eligible points
strictly below the own x of `p`, upper end the minimum of the canvas width
and the x-coordinates of eligible points strictly above it. -/
def clippedHorizontal (size : Int × Int) (pts : List SplitPoint)
    (p : SplitPoint) : Int × Int :=
  (((pts.filter fun q => hFilter p q && decide (q.pos.1 < p.pos.1)).map
      fun q : SplitPoint => q.pos.1).foldl max 0,
   ((pts.filter fun q => hFilter p q && decide (p.pos.1 < q.pos.1)).map
      fun q : SplitPoint => q.pos.1).foldl min size.1)

/-- Closed form of the clipped vertical interval of `p`, symmetric to
`clippedHorizontal` with y-coordinates and the canvas height. -/
def clippedVertical (size : Int × Int) (pts : List SplitPoint)
    (p : SplitPoint) : Int × Int :=
  (((pts.filter fun q => vFilter p q && decide (q.pos.2 < p.pos.2)).map
      fun q : SplitPoint => q.pos.2).foldl max 0,
   ((pts.filter fun q => vFilter p q && decide (p.pos.2 < q.pos.2)).map
      fun q : SplitPoint => q.pos.2).foldl min size.2)

/-- The effect of one recompute on a single point: each present interval
replaced by its closed form. -/
def clipMap (size : Int × Int) (pts : List SplitPoint) (p : SplitPoint) :
    SplitPoint :=
  { p with
    horizontal := p.horizontal.map fun _ => clippedHorizontal size pts p
    vertical := p.vertical.map fun _ => clippedVertical size pts p }

/-- The point list of the state is a fixed point of the clipping recompute:
every interval already equals its freshly recomputed value. -/
def Recomputed (s : SplitState) : Prop :=
  calculate_line_rects s.screen_size s.split_points = s.split_points

/-- Two axis-aligned rectangles share a point of positive area (treating
each as the half-open box `[x, x+w) × [y, y+h)`). -/
def rectsOverlap (a b : Rect) : Bool :=
  decide (max a.x b.x < min a.right b.right) &&
    decide (max a.y b.y < min a.bottom b.bottom)

/-- Containment test as the claim words it for comparison with the code:
fully inclusive, so a position on any edge of the rectangle, the right and
bottom edges included, counts as inside. -/
def inclusiveContainsPos (a : Rect) (q : Int × Int) : Bool :=
  decide (a.x ≤ q.1) && decide (q.1 ≤ a.right) &&
    decide (a.y ≤ q.2) && decide (q.2 ≤ a.bottom)

/-- The data of a point that one recompute pass reads from other points and
never changes: position, priority index, and presence of each cut. -/
def obsEq (p q : SplitPoint) : Prop :=
  p.pos = q.pos ∧ p.index = q.index ∧
    p.horizontal.isSome = q.horizontal.isSome ∧
    p.vertical.isSome = q.vertical.isSome

/-! Characterisation of the single clipping pass. -/

/-- The one-pass bound tightening computes the maximum of the candidates
strictly below `bound` (together with the initial lower bound) and the
minimum of the candidates strictly above `bound` (together with the initial
upper bound). -/
theorem calculate_bounds_eq (b : Int) (l : List Int) : ∀ lo hi : Int,
    calculate_bounds b lo hi l =
      ((l.filter fun x => decide (x < b)).foldl max lo,
       (l.filter fun x => decide (b < x)).foldl min hi) := by
  induction l with
  | nil => intro lo hi; rfl
  | cons x l ih =>
    intro lo hi
    rw [calculate_bounds]
    by_cases h1 : b > x ∧ x > lo
    · rw [if_pos h1, ih]
      have hf : (x :: l).filter (fun x => decide (x < b)) =
          x :: l.filter (fun x => decide (x < b)) := by
        simp only [List.filter_cons, decide_eq_true_eq]
        rw [if_pos h1.1]
      have hg : (x :: l).filter (fun x => decide (b < x)) =
          l.filter (fun x => decide (b < x)) := by
        simp only [List.filter_cons, decide_eq_true_eq]
        rw [if_neg (by omega)]
      rw [hf, hg, List.foldl_cons, max_eq_right h1.2.le]
    · rw [if_neg h1]
      by_cases h2 : hi > x ∧ x > b
      · rw [if_pos h2, ih]
        have hf : (x :: l).filter (fun x => decide (x < b)) =
            l.filter (fun x => decide (x < b)) := by
          simp only [List.filter_cons, decide_eq_true_eq]
          rw [if_neg (by omega)]
        have hg : (x :: l).filter (fun x => decide (b < x)) =
            x :: l.filter (fun x => decide (b < x)) := by
          simp only [List.filter_cons, decide_eq_true_eq]
          rw [if_pos h2.2]
        rw [hf, hg, List.foldl_cons, min_eq_right h2.1.le]
      · rw [if_neg h2, ih]
        rcases lt_trichotomy x b with hxb | hxb | hxb
        · have hxlo : x ≤ lo := by omega
          have hf : (x :: l).filter (fun x => decide (x < b)) =
              x :: l.filter (fun x => decide (x < b)) := by
            simp only [List.filter_cons, decide_eq_true_eq]
            rw [if_pos hxb]
          have hg : (x :: l).filter (fun x => decide (b < x)) =
              l.filter (fun x => decide (b < x)) := by
            simp only [List.filter_cons, decide_eq_true_eq]
            rw [if_neg (by omega)]
          rw [hf, hg, List.foldl_cons, max_eq_left hxlo]
        · have hf : (x :: l).filter (fun x => decide (x < b)) =
              l.filter (fun x => decide (x < b)) := by
            simp only [List.filter_cons, decide_eq_true_eq]
            rw [if_neg (by omega)]
          have hg : (x :: l).filter (fun x => decide (b < x)) =
              l.filter (fun x => decide (b < x)) := by
            simp only [List.filter_cons, decide_eq_true_eq]
            rw [if_neg (by omega)]
          rw [hf, hg]
        · have hxhi : hi ≤ x := by omega
          have hf : (x :: l).filter (fun x => decide (x < b)) =
              l.filter (fun x => decide (x < b)) := by
            simp only [List.filter_cons, decide_eq_true_eq]
            rw [if_neg (by omega)]
          have hg : (x :: l).filter (fun x => decide (b < x)) =
              x :: l.filter (fun x => decide (b < x)) := by
            simp only [List.filter_cons, decide_eq_true_eq]
            rw [if_pos hxb]
          rw [hf, hg, List.foldl_cons, min_eq_left hxhi]

/-- The loop body of the recompute in record form: each present interval of
the point is replaced by the tightened bounds over the respective candidate
coordinates of the prior points; the empty-prior shortcut of the source is
absorbed, because tightening over an empty candidate list is the identity. -/
theorem clipPoint_eq (size : Int × Int) (prior : List SplitPoint)
    (p : SplitPoint) :
    clipPoint size prior p =
      { p with
        horizontal := p.horizontal.map fun _ =>
          calculate_bounds p.pos.1 0 size.1
            ((prior.filter fun q : SplitPoint => q.vertical.isSome).map
              fun q : SplitPoint => q.pos.1)
        vertical := p.vertical.map fun _ =>
          calculate_bounds p.pos.2 0 size.2
            ((prior.filter fun q : SplitPoint => q.horizontal.isSome).map
              fun q : SplitPoint => q.pos.2) } := by
  rcases hpr : prior with _ | ⟨r, rs⟩
  · cases hH : p.horizontal <;> cases hV : p.vertical <;>
      simp [clipPoint, reset_bounds, hH, hV, calculate_bounds]
  · cases hH : p.horizontal <;> cases hV : p.vertical <;>
      simp [clipPoint, reset_bounds, hH, hV]

/-- Tightening the bounds over the candidates drawn from the sorted list is
the same as folding max and min over the corresponding candidates of the
original, unsorted list: the one-pass result only depends on the candidate
multiset. -/
theorem calculate_bounds_sorted (b lo0 hi0 : Int) (F : SplitPoint → Bool)
    (X : SplitPoint → Int) (pts : List SplitPoint) :
    calculate_bounds b lo0 hi0 (((sortByIndex pts).filter F).map X) =
      (((pts.filter fun q => F q && decide (X q < b)).map X).foldl max lo0,
       ((pts.filter fun q => F q && decide (b < X q)).map X).foldl min hi0) := by
  have hperm : ∀ G : SplitPoint → Bool,
      ((sortByIndex pts).filter G).Perm (pts.filter G) :=
    fun G => (List.perm_insertionSort leIdx pts).filter G
  have h1 : ∀ P : Int → Bool,
      (((sortByIndex pts).filter F).map X).filter P =
        ((sortByIndex pts).filter fun q => F q && P (X q)).map X := by
    intro P
    rw [List.filter_map, List.filter_filter]
    exact congrArg (List.map X)
      (List.filter_congr fun q _ => by simp [Function.comp, Bool.and_comm])
  rw [calculate_bounds_eq]
  refine congrArg₂ Prod.mk ?_ ?_
  · rw [h1 fun x => decide (x < b)]
    exact ((hperm _).map X).foldl_eq lo0
  · rw [h1 fun x => decide (b < x)]
    exact ((hperm _).map X).foldl_eq hi0

/-- Clipping a point against the sorted points of strictly smaller index is
exactly the closed-form update `clipMap`. -/
theorem clipPoint_sorted_eq (size : Int × Int) (pts : List SplitPoint)
    (p : SplitPoint) :
    clipPoint size ((sortByIndex pts).filter fun q => q.index < p.index) p =
      clipMap size pts p := by
  rw [clipPoint_eq]
  have hH : calculate_bounds p.pos.1 0 size.1
      (((((sortByIndex pts).filter fun q => q.index < p.index)).filter
        fun q : SplitPoint => q.vertical.isSome).map
          fun q : SplitPoint => q.pos.1) =
      clippedHorizontal size pts p := by
    rw [List.filter_filter]
    have h2 : (sortByIndex pts).filter
        (fun a => a.vertical.isSome && decide (a.index < p.index)) =
        (sortByIndex pts).filter (hFilter p) :=
      List.filter_congr fun q _ => by simp [hFilter, Bool.and_comm]
    rw [h2, calculate_bounds_sorted p.pos.1 0 size.1 (hFilter p)
      (fun q : SplitPoint => q.pos.1) pts]
    rfl
  have hV : calculate_bounds p.pos.2 0 size.2
      (((((sortByIndex pts).filter fun q => q.index < p.index)).filter
        fun q : SplitPoint => q.horizontal.isSome).map
          fun q : SplitPoint => q.pos.2) =
      clippedVertical size pts p := by
    rw [List.filter_filter]
    have h2 : (sortByIndex pts).filter
        (fun a => a.horizontal.isSome && decide (a.index < p.index)) =
        (sortByIndex pts).filter (vFilter p) :=
      List.filter_congr fun q _ => by simp [vFilter, Bool.and_comm]
    rw [h2, calculate_bounds_sorted p.pos.2 0 size.2 (vFilter p)
      (fun q : SplitPoint => q.pos.2) pts]
    rfl
  simp only [hH, hV]
  rfl

/-- Normal form of the recompute: every point of the list, in its original
order, gets the closed-form clipped intervals computed from the whole
current point set. -/
theorem calculate_line_rects_eq (size : Int × Int) (pts : List SplitPoint) :
    calculate_line_rects size pts = pts.map (clipMap size pts) := by
  unfold calculate_line_rects
  have h : (fun p => clipPoint size
      ((sortByIndex pts).filter fun q => q.index < p.index) p) =
      clipMap size pts :=
    funext fun p => clipPoint_sorted_eq size pts p
  rw [h]

/-! Faithfulness of the in-place loop: processing the sorted list while
mutating points in place gives every point the closed-form value used in the
definition of `calculate_line_rects`. -/

/-- Clipping changes neither the position, the index, nor the presence of
either cut of a point. -/
theorem obsEq_clipPoint (size : Int × Int) (prior : List SplitPoint)
    (p : SplitPoint) : obsEq (clipPoint size prior p) p := by
  rw [clipPoint_eq]
  refine ⟨rfl, rfl, ?_, ?_⟩ <;> simp

/-- Clipping reads only the position and cut presence of the prior points:
observationally equal prior lists clip a point identically. -/
theorem clipPoint_congr (size : Int × Int) {l l' : List SplitPoint}
    (h : List.Forall₂ obsEq l l') (p : SplitPoint) :
    clipPoint size l p = clipPoint size l' p := by
  have hv : (l.filter fun q : SplitPoint => q.vertical.isSome).map
      (fun q : SplitPoint => q.pos.1) =
      (l'.filter fun q : SplitPoint => q.vertical.isSome).map
        fun q : SplitPoint => q.pos.1 := by
    induction h with
    | nil => rfl
    | @cons a b la lb hpq hrest ih =>
      rcases hpq with ⟨hpos, _, _, hvs⟩
      rw [List.filter_cons, List.filter_cons, hvs]
      by_cases hb : b.vertical.isSome = true
      · rw [if_pos hb, if_pos hb, List.map_cons, List.map_cons, hpos, ih]
      · rw [if_neg hb, if_neg hb, ih]
  have hh : (l.filter fun q : SplitPoint => q.horizontal.isSome).map
      (fun q : SplitPoint => q.pos.2) =
      (l'.filter fun q : SplitPoint => q.horizontal.isSome).map
        fun q : SplitPoint => q.pos.2 := by
    clear hv
    induction h with
    | nil => rfl
    | @cons a b la lb hpq hrest ih =>
      rcases hpq with ⟨hpos, _, hhs, _⟩
      rw [List.filter_cons, List.filter_cons, hhs]
      by_cases hb : b.horizontal.isSome = true
      · rw [if_pos hb, if_pos hb, List.map_cons, List.map_cons, hpos, ih]
      · rw [if_neg hb, if_neg hb, ih]
  rw [clipPoint_eq, clipPoint_eq, hv, hh]

/-- Filtering away a fixed index respects observational equality of
lists. -/
theorem forall₂_filter_ne (a : Int) {l l' : List SplitPoint}
    (h : List.Forall₂ obsEq l l') :
    List.Forall₂ obsEq (l.filter fun q => q.index ≠ a)
      (l'.filter fun q => q.index ≠ a) := by
  induction h with
  | nil => exact List.Forall₂.nil
  | @cons x y lx ly hpq hrest ih =>
    have hidx : x.index = y.index := hpq.2.1
    rw [List.filter_cons, List.filter_cons, hidx]
    by_cases hb : decide (y.index ≠ a) = true
    · rw [if_pos hb, if_pos hb]
      exact List.Forall₂.cons hpq ih
    · rw [if_neg hb, if_neg hb]
      exact ih

/-- The in-place loop over a sorted suffix: provided the processed prefix is
observationally the original prefix, every remaining point is sent to its
clip against the whole-list points of strictly smaller index. -/
theorem lineRectsLoop_general (size : Int × Int) (S : List SplitPoint)
    (hS : List.Sorted leIdx S) :
    ∀ (rest done d0 : List SplitPoint), S = d0 ++ rest →
      List.Forall₂ obsEq done d0 →
      lineRectsLoop size done rest =
        rest.map fun p =>
          clipPoint size (S.filter fun q => q.index < p.index) p := by
  intro rest
  induction rest with
  | nil => intro done d0 _ _; rfl
  | cons p rest ih =>
    intro done d0 hdec hobs
    have hPW : List.Pairwise leIdx S := hS
    rw [hdec] at hPW
    rcases List.pairwise_append.mp hPW with ⟨_, hpw2, hcross⟩
    have hbefore : ∀ x ∈ d0, x.index ≤ p.index :=
      fun x hx => hcross x hx p (List.mem_cons_self p rest)
    have hafter : ∀ y ∈ rest, p.index ≤ y.index :=
      fun y hy => (List.pairwise_cons.mp hpw2).1 y hy
    have hd0 : d0.filter (fun q => q.index ≠ p.index) =
        S.filter fun q => q.index < p.index := by
      rw [hdec, List.filter_append, List.filter_cons]
      have hself : (decide (p.index < p.index)) = false := by simp
      rw [if_neg (by simp)]
      have hrest0 : rest.filter (fun q => q.index < p.index) = [] :=
        List.filter_eq_nil_iff.mpr fun y hy => by
          have := hafter y hy
          simp only [decide_eq_true_eq]
          omega
      rw [hrest0, List.append_nil]
      exact List.filter_congr fun x hx => decide_eq_decide.mpr
        (by have := hbefore x hx; omega)
    have hhead : clipPoint size (done.filter fun q => q.index ≠ p.index) p =
        clipPoint size (S.filter fun q => q.index < p.index) p := by
      rw [clipPoint_congr size (forall₂_filter_ne p.index hobs) p, hd0]
    rw [lineRectsLoop, List.map_cons]
    refine congrArg₂ List.cons hhead ?_
    refine ih (done ++ [clipPoint size
      (done.filter fun q => q.index ≠ p.index) p]) (d0 ++ [p]) ?_ ?_
    · rw [hdec, List.append_assoc, List.singleton_append]
    · exact List.rel_append hobs
        (List.Forall₂.cons (obsEq_clipPoint size _ p) List.Forall₂.nil)

/-- Faithfulness of `calculate_line_rects`: running the literal source loop
(`lineRectsLoop`) over the sorted point list computes exactly the per-point
values that the definition of `calculate_line_rects` assigns. -/
theorem lineRectsLoop_eq (size : Int × Int) (pts : List SplitPoint) :
    lineRectsLoop size [] (sortByIndex pts) =
      (sortByIndex pts).map fun p =>
        clipPoint size ((sortByIndex pts).filter fun q => q.index < p.index)
          p :=
  lineRectsLoop_general size (sortByIndex pts)
    (List.sorted_insertionSort leIdx pts) (sortByIndex pts) [] [] rfl
    List.Forall₂.nil

/-! Idempotence of the recompute. -/

/-- `clipMap` keeps the position. -/
theorem clipMap_pos (size : Int × Int) (pts : List SplitPoint)
    (q : SplitPoint) : (clipMap size pts q).pos = q.pos := rfl

/-- `clipMap` keeps the priority index. -/
theorem clipMap_index (size : Int × Int) (pts : List SplitPoint)
    (q : SplitPoint) : (clipMap size pts q).index = q.index := rfl

/-- `clipMap` keeps the presence of the horizontal cut. -/
theorem clipMap_hSome (size : Int × Int) (pts : List SplitPoint)
    (q : SplitPoint) :
    (clipMap size pts q).horizontal.isSome = q.horizontal.isSome := by
  simp [clipMap]

/-- `clipMap` keeps the presence of the vertical cut. -/
theorem clipMap_vSome (size : Int × Int) (pts : List SplitPoint)
    (q : SplitPoint) :
    (clipMap size pts q).vertical.isSome = q.vertical.isSome := by
  simp [clipMap]

/-- Eligibility for horizontal clipping reads only data `clipMap` keeps. -/
theorem hFilter_clipMap (size : Int × Int) (pts : List SplitPoint)
    (p q : SplitPoint) :
    hFilter (clipMap size pts p) (clipMap size pts q) = hFilter p q := by
  simp [hFilter, clipMap_vSome, clipMap_index]

/-- Eligibility for vertical clipping reads only data `clipMap` keeps. -/
theorem vFilter_clipMap (size : Int × Int) (pts : List SplitPoint)
    (p q : SplitPoint) :
    vFilter (clipMap size pts p) (clipMap size pts q) = vFilter p q := by
  simp [vFilter, clipMap_hSome, clipMap_index]

/-- Candidate coordinates drawn from a recomputed list equal those drawn
from the original list, for any predicate and coordinate that read only the
data `clipMap` keeps. -/
theorem candidates_clipMap (size : Int × Int) (pts : List SplitPoint)
    (X : SplitPoint → Int) (hX : ∀ q, X (clipMap size pts q) = X q)
    (P Q : SplitPoint → Bool) (hP : ∀ q, P (clipMap size pts q) = Q q) :
    ((pts.map (clipMap size pts)).filter P).map X = (pts.filter Q).map X := by
  rw [List.filter_map, List.map_map]
  have e1 : X ∘ clipMap size pts = X := funext hX
  have e2 : pts.filter (P ∘ clipMap size pts) = pts.filter Q :=
    List.filter_congr fun q _ => hP q
  rw [e1, e2]

/-- The closed-form horizontal interval is unchanged when computed over the
recomputed point set for the recomputed point. -/
theorem clippedHorizontal_idem (size : Int × Int) (pts : List SplitPoint)
    (p : SplitPoint) :
    clippedHorizontal size (pts.map (clipMap size pts)) (clipMap size pts p)
      = clippedHorizontal size pts p := by
  unfold clippedHorizontal
  refine congrArg₂ Prod.mk ?_ ?_
  · exact congrArg (fun l : List Int => l.foldl max 0)
      (candidates_clipMap size pts (fun q : SplitPoint => q.pos.1)
        (fun q => rfl) _ _ fun q => by
        rw [hFilter_clipMap, clipMap_pos, clipMap_pos])
  · exact congrArg (fun l : List Int => l.foldl min size.1)
      (candidates_clipMap size pts (fun q : SplitPoint => q.pos.1)
        (fun q => rfl) _ _ fun q => by
        rw [hFilter_clipMap, clipMap_pos, clipMap_pos])

/-- The closed-form vertical interval is unchanged when computed over the
recomputed point set for the recomputed point. -/
theorem clippedVertical_idem (size : Int × Int) (pts : List SplitPoint)
    (p : SplitPoint) :
    clippedVertical size (pts.map (clipMap size pts)) (clipMap size pts p)
      = clippedVertical size pts p := by
  unfold clippedVertical
  refine congrArg₂ Prod.mk ?_ ?_
  · exact congrArg (fun l : List Int => l.foldl max 0)
      (candidates_clipMap size pts (fun q : SplitPoint => q.pos.2)
        (fun q => rfl) _ _ fun q => by
        rw [vFilter_clipMap, clipMap_pos, clipMap_pos])
  · exact congrArg (fun l : List Int => l.foldl min size.2)
      (candidates_clipMap size pts (fun q : SplitPoint => q.pos.2)
        (fun q => rfl) _ _ fun q => by
        rw [vFilter_clipMap, clipMap_pos, clipMap_pos])

/-- Recomputing twice is the same as recomputing once. -/
theorem calculate_line_rects_idem (size : Int × Int) (pts : List SplitPoint) :
    calculate_line_rects size (calculate_line_rects size pts) =
      calculate_line_rects size pts := by
  rw [calculate_line_rects_eq size pts, calculate_line_rects_eq,
    List.map_map]
  have h : ∀ p : SplitPoint,
      (clipMap size (pts.map (clipMap size pts)) ∘ clipMap size pts) p =
        clipMap size pts p := by
    intro p
    have hH := clippedHorizontal_idem size pts p
    have hV := clippedVertical_idem size pts p
    show ({ clipMap size pts p with
        horizontal := (clipMap size pts p).horizontal.map fun _ =>
          clippedHorizontal size (pts.map (clipMap size pts))
            (clipMap size pts p)
        vertical := (clipMap size pts p).vertical.map fun _ =>
          clippedVertical size (pts.map (clipMap size pts))
            (clipMap size pts p) } : SplitPoint) = clipMap size pts p
    rw [hH, hV]
    show ({ clipMap size pts p with
        horizontal := (p.horizontal.map fun _ =>
          clippedHorizontal size pts p).map fun _ =>
            clippedHorizontal size pts p
        vertical := (p.vertical.map fun _ =>
          clippedVertical size pts p).map fun _ =>
            clippedVertical size pts p } : SplitPoint) = clipMap size pts p
    rw [Option.map_map, Option.map_map]
    rfl
  rw [funext h]

/-- A state just recomputed satisfies the fixed-point invariant. -/
theorem recomputed_recompute (s : SplitState) : Recomputed (recompute s) :=
  calculate_line_rects_idem s.screen_size s.split_points

/-- Appending a freshly created point (no cuts) commutes with the recompute:
the new point clips nobody and is clipped into nothing. -/
theorem calculate_line_rects_append_newPoint (size : Int × Int)
    (pts : List SplitPoint) (q : Int × Int) :
    calculate_line_rects size (pts ++ [newPoint q]) =
      calculate_line_rects size pts ++ [newPoint q] := by
  rw [calculate_line_rects_eq, calculate_line_rects_eq, List.map_append]
  have hcand : ∀ (X : SplitPoint → Int) (P : SplitPoint → Bool),
      P (newPoint q) = false →
      ((pts ++ [newPoint q]).filter P).map X = (pts.filter P).map X := by
    intro X P hP
    rw [List.filter_append]
    simp [List.filter, hP]
  have hclip : ∀ p : SplitPoint,
      clipMap size (pts ++ [newPoint q]) p = clipMap size pts p := by
    intro p
    unfold clipMap
    have hH : clippedHorizontal size (pts ++ [newPoint q]) p =
        clippedHorizontal size pts p := by
      unfold clippedHorizontal
      refine congrArg₂ Prod.mk ?_ ?_
      · exact congrArg (fun l : List Int => l.foldl max 0)
          (hcand _ _ (by simp [hFilter, newPoint]))
      · exact congrArg (fun l : List Int => l.foldl min size.1)
          (hcand _ _ (by simp [hFilter, newPoint]))
    have hV : clippedVertical size (pts ++ [newPoint q]) p =
        clippedVertical size pts p := by
      unfold clippedVertical
      refine congrArg₂ Prod.mk ?_ ?_
      · exact congrArg (fun l : List Int => l.foldl max 0)
          (hcand _ _ (by simp [vFilter, newPoint]))
      · exact congrArg (fun l : List Int => l.foldl min size.2)
          (hcand _ _ (by simp [vFilter, newPoint]))
    rw [hH, hV]
  rw [funext hclip]
  have hnew : [newPoint q].map (clipMap size pts) = [newPoint q] := rfl
  rw [hnew]

/-! Helper lemmas shared by the claim theorems. -/

/-- Every point of the recompute output with an active horizontal cut holds
exactly the closed-form interval. -/
theorem mem_line_rects_horizontal (size : Int × Int) (pts : List SplitPoint)
    (p : SplitPoint) (hp : p ∈ calculate_line_rects size pts) :
    ∀ intv, p.horizontal = some intv → intv = clippedHorizontal size pts p := by
  rw [calculate_line_rects_eq] at hp
  rcases List.mem_map.mp hp with ⟨p0, _, rfl⟩
  intro intv hintv
  have h1 : (clipMap size pts p0).horizontal =
      p0.horizontal.map fun _ => clippedHorizontal size pts p0 := rfl
  rw [h1] at hintv
  cases hO : p0.horizontal with
  | none => rw [hO] at hintv; exact absurd hintv (by simp)
  | some y =>
    rw [hO] at hintv
    have h2 : clippedHorizontal size pts p0 = intv := by
      injection hintv
    exact h2.symm

/-- Every point of the recompute output with an active vertical cut holds
exactly the closed-form interval. -/
theorem mem_line_rects_vertical (size : Int × Int) (pts : List SplitPoint)
    (p : SplitPoint) (hp : p ∈ calculate_line_rects size pts) :
    ∀ intv, p.vertical = some intv → intv = clippedVertical size pts p := by
  rw [calculate_line_rects_eq] at hp
  rcases List.mem_map.mp hp with ⟨p0, _, rfl⟩
  intro intv hintv
  have h1 : (clipMap size pts p0).vertical =
      p0.vertical.map fun _ => clippedVertical size pts p0 := rfl
  rw [h1] at hintv
  cases hO : p0.vertical with
  | none => rw [hO] at hintv; exact absurd hintv (by simp)
  | some y =>
    rw [hO] at hintv
    have h2 : clippedVertical size pts p0 = intv := by
      injection hintv
    exact h2.symm

/-- Folding max keeps any upper bound respected by the seed and every
element. -/
theorem foldl_max_le (b : Int) : ∀ (l : List Int) (a : Int), a ≤ b →
    (∀ x ∈ l, x ≤ b) → l.foldl max a ≤ b := by
  intro l
  induction l with
  | nil => intro a ha _; simpa using ha
  | cons x l ih =>
    intro a ha hall
    rw [List.foldl_cons]
    exact ih (max a x)
      (max_le ha (hall x (List.mem_cons_self x l)))
      fun y hy => hall y (List.mem_cons_of_mem x hy)

/-- Folding min keeps any strict lower bound respected by the seed and every
element. -/
theorem lt_foldl_min (b : Int) : ∀ (l : List Int) (a : Int), b < a →
    (∀ x ∈ l, b < x) → b < l.foldl min a := by
  intro l
  induction l with
  | nil => intro a ha _; simpa using ha
  | cons x l ih =>
    intro a ha hall
    rw [List.foldl_cons]
    exact ih (min a x)
      (lt_min ha (hall x (List.mem_cons_self x l)))
      fun y hy => hall y (List.mem_cons_of_mem x hy)

/-- If no point of the list is within pick radius, the scan finds none. -/
theorem findPoint_eq_none (r : Int) (q : Int × Int) :
    ∀ l : List SplitPoint, (∀ p ∈ l, dist_le p q r = false) →
      findPoint r q l = none := by
  intro l
  induction l with
  | nil => intro _; rfl
  | cons p l ih =>
    intro h
    rw [findPoint, if_neg (by simp [h p (List.mem_cons_self p l)]),
      ih fun y hy => h y (List.mem_cons_of_mem p hy)]
    rfl

/-- If no point of the prefix matches and the appended point does, the scan
finds the appended point, at the position equal to the prefix length. -/
theorem findPoint_append (r : Int) (q : Int × Int) (n : SplitPoint)
    (hn : dist_le n q r = true) :
    ∀ l : List SplitPoint, (∀ p ∈ l, dist_le p q r = false) →
      findPoint r q (l ++ [n]) = some l.length := by
  intro l
  induction l with
  | nil => intro _; rw [List.nil_append, findPoint, if_pos hn]; rfl
  | cons p l ih =>
    intro h
    rw [List.cons_append, findPoint,
      if_neg (by simp [h p (List.mem_cons_self p l)]),
      ih fun y hy => h y (List.mem_cons_of_mem p hy)]
    rfl

/-- A freshly placed point lies at distance zero from the click location, so
it passes the pick-radius test whenever the radius is nonnegative. -/
theorem dist_le_newPoint (q : Int × Int) (r : Int) (hr : 0 ≤ r) :
    dist_le (newPoint q) q r = true := by
  unfold dist_le newPoint
  simp only [Bool.and_eq_true, decide_eq_true_eq]
  constructor
  · exact hr
  · simp only [sub_self]
    positivity

/-- The selecting branch of `add_point`. -/
theorem add_point_found (s : SplitState) (q : Int × Int) (i : Nat)
    (hf : findPoint s.dot_radius q s.split_points = some i) :
    add_point q s = { s with selected_point := some i } := by
  unfold add_point
  rw [hf]

/-- Writing the value a field already holds is the identity. -/
theorem set_selected_self (s : SplitState) (v : Option Nat)
    (h : s.selected_point = v) : { s with selected_point := v } = s := by
  cases s
  cases h
  rfl

/-- Unfolds one `horizontal_split` on a state with a selection: the point
list becomes the recomputed toggled list, selection and canvas stay. -/
theorem horizontal_split_expand (s : SplitState) (i : Nat)
    (hsel : s.selected_point = some i) :
    (horizontal_split s).split_points =
      (modifyAt s.split_points i (toggle_horizontal s.screen_size.1)).map
        (clipMap s.screen_size
          (modifyAt s.split_points i (toggle_horizontal s.screen_size.1))) ∧
    (horizontal_split s).selected_point = some i ∧
    (horizontal_split s).screen_size = s.screen_size := by
  unfold horizontal_split
  rw [hsel]
  exact ⟨calculate_line_rects_eq _ _, rfl, rfl⟩

/-- Unfolds one `vertical_split` on a state with a selection. -/
theorem vertical_split_expand (s : SplitState) (i : Nat)
    (hsel : s.selected_point = some i) :
    (vertical_split s).split_points =
      (modifyAt s.split_points i (toggle_vertical s.screen_size.2)).map
        (clipMap s.screen_size
          (modifyAt s.split_points i (toggle_vertical s.screen_size.2))) ∧
    (vertical_split s).selected_point = some i ∧
    (vertical_split s).screen_size = s.screen_size := by
  unfold vertical_split
  rw [hsel]
  exact ⟨calculate_line_rects_eq _ _, rfl, rfl⟩

/-! The claims. -/

/-- C1: the claim states that for every point set the rectangles returned by
`calculate_boxes` are pairwise non-overlapping with union the full canvas.
The code does not sort the cut coordinates collected from a priority group,
so two same-priority vertical cuts placed in decreasing x order (x = 70 then
x = 30 on a 100 by 100 canvas) make it return the rectangles (0,0,70,100),
(70,0,-40,100) and (30,0,70,100): the first and the last overlap on the
strip between x = 30 and x = 70, refuting pairwise disjointness.  This
evaluates the code at that failing input. -/
theorem c1_unsorted_group_cuts_overlap :
    calculate_boxes (100, 100)
      [⟨(70, 10), none, some (0, 100), 0⟩,
       ⟨(30, 20), none, some (0, 100), 0⟩] =
      [Rect.mk 0 0 70 100, Rect.mk 70 0 (-40) 100, Rect.mk 30 0 70 100] ∧
    rectsOverlap (Rect.mk 0 0 70 100) (Rect.mk 30 0 70 100) = true ∧
    ¬ List.Pairwise (fun a b => rectsOverlap a b = false)
      (calculate_boxes (100, 100)
        [⟨(70, 10), none, some (0, 100), 0⟩,
         ⟨(30, 20), none, some (0, 100), 0⟩]) := by
  have heq : calculate_boxes (100, 100)
      [⟨(70, 10), none, some (0, 100), 0⟩,
       ⟨(30, 20), none, some (0, 100), 0⟩] =
      [Rect.mk 0 0 70 100, Rect.mk 70 0 (-40) 100, Rect.mk 30 0 70 100] :=
    by decide
  refine ⟨heq, by decide, ?_⟩
  intro h
  rw [heq] at h
  exact absurd ((List.pairwise_cons.mp h).1 (Rect.mk 30 0 70 100)
    (by simp)) (by decide)

/-- C3: on the 100 by 100 canvas with point A at (50,50), horizontal cut,
priority 0, and point B at (50,80), vertical cut, priority 1, the recompute
leaves the horizontal interval of A at [0,100) and clips the vertical
interval of B to [50,100), and `calculate_boxes` then returns exactly the
three rectangles (0,0,100,50), (0,50,50,50) and (50,50,50,50). -/
theorem c3_concrete_scenario :
    calculate_line_rects (100, 100)
      [⟨(50, 50), some (0, 100), none, 0⟩,
       ⟨(50, 80), none, some (0, 100), 1⟩] =
      [⟨(50, 50), some (0, 100), none, 0⟩,
       ⟨(50, 80), none, some (50, 100), 1⟩] ∧
    calculate_boxes (100, 100)
      [⟨(50, 50), some (0, 100), none, 0⟩,
       ⟨(50, 80), none, some (50, 100), 1⟩] =
      [Rect.mk 0 0 100 50, Rect.mk 0 50 50 50, Rect.mk 50 50 50 50] := by
  exact ⟨by decide, by decide⟩

/-- C4: whenever no point carries an active cut, `calculate_boxes` returns
exactly the single full-canvas rectangle. -/
theorem c4_no_cuts_single_canvas (size : Int × Int) (pts : List SplitPoint)
    (h : ∀ p ∈ pts, p.horizontal = none ∧ p.vertical = none) :
    calculate_boxes size pts = [Rect.mk 0 0 size.1 size.2] := by
  have hfil : pts.filter
      (fun p => p.horizontal.isSome || p.vertical.isSome) = [] :=
    List.filter_eq_nil_iff.mpr fun p hp => by
      rcases h p hp with ⟨h1, h2⟩
      simp [h1, h2]
  unfold calculate_boxes group_points
  rw [hfil]
  show [Rect.mk 0 0 (0 + size.1 - 0) (0 + size.2 - 0)] =
    [Rect.mk 0 0 size.1 size.2]
  norm_num

/-- C4 witness: a single cutless point on a 7 by 9 canvas. -/
theorem c4_no_cuts_single_canvas_witness :
    calculate_boxes (7, 9) [⟨(3, 4), none, none, 2⟩] = [Rect.mk 0 0 7 9] :=
  c4_no_cuts_single_canvas (7, 9) [⟨(3, 4), none, none, 2⟩] (by decide)

/-- C5 counterexample: the claim asserts an inclusive containment test, with
positions on the right or bottom edge of a rectangle counting as inside.  A
point on the right edge of the full canvas satisfies the inclusive test, but
the pygame test used by the code rejects it, so `calculate_boxes` ignores
its cut and returns the undivided canvas. -/
theorem c5_right_edge_point_excluded :
    inclusiveContainsPos (Rect.mk 0 0 100 100) (100, 50) = true ∧
    Rect.containsPos (Rect.mk 0 0 100 100) (100, 50) = false ∧
    boxPoints (Rect.mk 0 0 100 100)
      [⟨(100, 50), none, some (0, 100), 0⟩] = [] ∧
    calculate_boxes (100, 100) [⟨(100, 50), none, some (0, 100), 0⟩] =
      [Rect.mk 0 0 100 100] := by
  exact ⟨by decide, by decide, by decide, by decide⟩

/-- C5 amended: the points of a group used to subdivide a rectangle are
exactly those whose position passes the half-open containment test,
inclusive on the left and top edges and strict on the right and bottom
edges. -/
theorem c5_boxPoints_half_open (box : Rect) (g : List SplitPoint) :
    boxPoints box g = g.filter fun p =>
      decide (box.x ≤ p.pos.1) && decide (p.pos.1 < box.right) &&
        decide (box.y ≤ p.pos.2) && decide (p.pos.2 < box.bottom) := by
  unfold boxPoints
  refine List.filter_congr fun p _ => ?_
  rw [Bool.eq_iff_iff]
  simp only [Rect.containsPos, Rect.containsRect, posRect, Rect.right,
    Rect.bottom, Bool.and_eq_true, decide_eq_true_eq]
  omega

/-- C2: after the recompute, every point with an active horizontal cut holds
the interval whose lower end is the maximum of 0 and the x-coordinates of
strictly-lower-priority vertical-cut points strictly left of its own x, and
whose upper end is the minimum of the canvas width and the x-coordinates of
such points strictly right of its own x (`clippedHorizontal` is literally
that fold); points at equal x or equal priority never narrow the interval,
as the strict comparisons in the filters state.  Symmetrically the vertical
interval (`clippedVertical`) uses y-coordinates of strictly-lower-priority
horizontal-cut points and the canvas height. -/
theorem c2_interval_closed_form (size : Int × Int) (pts : List SplitPoint)
    (p : SplitPoint) (hp : p ∈ calculate_line_rects size pts) :
    (∀ intv, p.horizontal = some intv →
      intv = clippedHorizontal size pts p) ∧
    (∀ intv, p.vertical = some intv → intv = clippedVertical size pts p) :=
  ⟨mem_line_rects_horizontal size pts p hp,
   mem_line_rects_vertical size pts p hp⟩

/-- C2 witness: in the two-point scenario the clipped point B with vertical
interval [50,100) is in the recompute output and the closed form evaluates
to exactly that interval. -/
theorem c2_interval_closed_form_witness :
    ((⟨(50, 80), none, some (50, 100), 1⟩ : SplitPoint) ∈
      calculate_line_rects (100, 100)
        [⟨(50, 50), some (0, 100), none, 0⟩,
         ⟨(50, 80), none, some (0, 100), 1⟩]) ∧
    ((50 : Int), (100 : Int)) = clippedVertical (100, 100)
      [⟨(50, 50), some (0, 100), none, 0⟩,
       ⟨(50, 80), none, some (0, 100), 1⟩]
      ⟨(50, 80), none, some (50, 100), 1⟩ :=
  ⟨by decide,
   (c2_interval_closed_form (100, 100)
     [⟨(50, 50), some (0, 100), none, 0⟩,
      ⟨(50, 80), none, some (0, 100), 1⟩]
     ⟨(50, 80), none, some (50, 100), 1⟩ (by decide)).2 (50, 100) rfl⟩

/-- C10: clipping never excludes the anchor: for every output point whose
coordinate lies on the canvas, an active horizontal interval [lo, hi)
satisfies lo <= x < hi at the own x of the point, and an active vertical
interval satisfies the same at the own y against the canvas height. -/
theorem c10_anchor_inside_interval (size : Int × Int)
    (pts : List SplitPoint) (p : SplitPoint)
    (hp : p ∈ calculate_line_rects size pts) :
    (∀ lo hi, p.horizontal = some (lo, hi) →
      0 ≤ p.pos.1 → p.pos.1 < size.1 → lo ≤ p.pos.1 ∧ p.pos.1 < hi) ∧
    (∀ lo hi, p.vertical = some (lo, hi) →
      0 ≤ p.pos.2 → p.pos.2 < size.2 → lo ≤ p.pos.2 ∧ p.pos.2 < hi) := by
  constructor
  · intro lo hi hH h0 hw
    have hc := mem_line_rects_horizontal size pts p hp (lo, hi) hH
    have hlo : lo = ((pts.filter fun q =>
        hFilter p q && decide (q.pos.1 < p.pos.1)).map
          fun q : SplitPoint => q.pos.1).foldl max 0 :=
      congrArg Prod.fst hc
    have hhi : hi = ((pts.filter fun q =>
        hFilter p q && decide (p.pos.1 < q.pos.1)).map
          fun q : SplitPoint => q.pos.1).foldl min size.1 :=
      congrArg Prod.snd hc
    constructor
    · rw [hlo]
      refine foldl_max_le p.pos.1 _ 0 h0 fun x hx => ?_
      rcases List.mem_map.mp hx with ⟨q, hq, rfl⟩
      have h2 := (List.mem_filter.mp hq).2
      simp only [Bool.and_eq_true, decide_eq_true_eq] at h2
      exact le_of_lt h2.2
    · rw [hhi]
      refine lt_foldl_min p.pos.1 _ size.1 hw fun x hx => ?_
      rcases List.mem_map.mp hx with ⟨q, hq, rfl⟩
      have h2 := (List.mem_filter.mp hq).2
      simp only [Bool.and_eq_true, decide_eq_true_eq] at h2
      exact h2.2
  · intro lo hi hV h0 hw
    have hc := mem_line_rects_vertical size pts p hp (lo, hi) hV
    have hlo : lo = ((pts.filter fun q =>
        vFilter p q && decide (q.pos.2 < p.pos.2)).map
          fun q : SplitPoint => q.pos.2).foldl max 0 :=
      congrArg Prod.fst hc
    have hhi : hi = ((pts.filter fun q =>
        vFilter p q && decide (p.pos.2 < q.pos.2)).map
          fun q : SplitPoint => q.pos.2).foldl min size.2 :=
      congrArg Prod.snd hc
    constructor
    · rw [hlo]
      refine foldl_max_le p.pos.2 _ 0 h0 fun x hx => ?_
      rcases List.mem_map.mp hx with ⟨q, hq, rfl⟩
      have h2 := (List.mem_filter.mp hq).2
      simp only [Bool.and_eq_true, decide_eq_true_eq] at h2
      exact le_of_lt h2.2
    · rw [hhi]
      refine lt_foldl_min p.pos.2 _ size.2 hw fun x hx => ?_
      rcases List.mem_map.mp hx with ⟨q, hq, rfl⟩
      have h2 := (List.mem_filter.mp hq).2
      simp only [Bool.and_eq_true, decide_eq_true_eq] at h2
      exact h2.2

/-- C10 witness: in the two-point scenario, the anchor y = 80 of the clipped
point B lies inside its vertical interval [50, 100). -/
theorem c10_anchor_inside_interval_witness :
    (50 : Int) ≤ 80 ∧ (80 : Int) < 100 :=
  (c10_anchor_inside_interval (100, 100)
    [⟨(50, 50), some (0, 100), none, 0⟩,
     ⟨(50, 80), none, some (0, 100), 1⟩]
    ⟨(50, 80), none, some (50, 100), 1⟩ (by decide)).2 50 100 rfl
    (by decide) (by decide)

/-- C6: after every structural change command the point list is a fixed
point of the from-scratch clipping recompute — the delete, toggle and
reprioritise commands literally end in a recompute (which is idempotent),
and place-or-select either leaves the list unchanged or appends a cutless
point, which neither clips nor is clipped, so the equality with the
from-scratch recompute is preserved. -/
theorem c6_commands_preserve_recompute (c : Cmd) (s : SplitState)
    (h : Recomputed s) : Recomputed (step c s) := by
  cases c with
  | place q =>
    show Recomputed (add_point q s)
    unfold add_point
    cases hf : findPoint s.dot_radius q s.split_points with
    | some i => exact h
    | none =>
      unfold Recomputed at h ⊢
      show calculate_line_rects s.screen_size
          (s.split_points ++ [newPoint q]) =
        s.split_points ++ [newPoint q]
      rw [calculate_line_rects_append_newPoint, h]
  | del q => exact recomputed_recompute _
  | hsplit =>
    show Recomputed (horizontal_split s)
    unfold horizontal_split
    cases hs : s.selected_point with
    | none => exact h
    | some i => exact recomputed_recompute _
  | vsplit =>
    show Recomputed (vertical_split s)
    unfold vertical_split
    cases hs : s.selected_point with
    | none => exact h
    | some i => exact recomputed_recompute _
  | inc =>
    show Recomputed (increment_index s)
    unfold increment_index
    cases hs : s.selected_point with
    | none => exact h
    | some i => exact recomputed_recompute _
  | dec =>
    show Recomputed (decrement_index s)
    unfold decrement_index
    cases hs : s.selected_point with
    | none => exact h
    | some i => exact recomputed_recompute _

/-- C6 witness: a recomputed one-point state stays recomputed across a
toggle command. -/
theorem c6_commands_preserve_recompute_witness :
    Recomputed (step Cmd.hsplit
      ⟨(100, 100), 5, [⟨(50, 50), some (0, 100), none, 0⟩], some 0⟩) :=
  c6_commands_preserve_recompute Cmd.hsplit
    ⟨(100, 100), 5, [⟨(50, 50), some (0, 100), none, 0⟩], some 0⟩
    (by unfold Recomputed; decide)

/-- C7: toggling the same axis twice on the selected point returns that
axis to the no-cut state `none`, whatever clipped interval the first toggle
and its recompute produced in between. -/
theorem c7_toggle_twice_clears (s : SplitState) (i : Nat) (p : SplitPoint)
    (hsel : s.selected_point = some i) (hp : s.split_points[i]? = some p) :
    (p.horizontal = none →
      ∃ p2, ((horizontal_split (horizontal_split s)).split_points)[i]? =
        some p2 ∧ p2.horizontal = none) ∧
    (p.vertical = none →
      ∃ p2, ((vertical_split (vertical_split s)).split_points)[i]? =
        some p2 ∧ p2.vertical = none) := by
  have hi : i < s.split_points.length := (List.getElem?_eq_some.mp hp).1
  constructor
  · intro hH
    obtain ⟨hpts1, hsel1, _⟩ := horizontal_split_expand s i hsel
    have hmod : modifyAt s.split_points i
        (toggle_horizontal s.screen_size.1) =
        s.split_points.set i
          { p with horizontal := some (0, s.screen_size.1) } := by
      unfold modifyAt
      rw [hp]
      show s.split_points.set i (toggle_horizontal s.screen_size.1 p) =
        s.split_points.set i
          { p with horizontal := some (0, s.screen_size.1) }
      unfold toggle_horizontal
      rw [hH]
    have hel1 : (horizontal_split s).split_points[i]? =
        some (clipMap s.screen_size
          (s.split_points.set i
            { p with horizontal := some (0, s.screen_size.1) })
          { p with horizontal := some (0, s.screen_size.1) }) := by
      rw [hpts1, hmod, List.getElem?_map, List.getElem?_set_self hi]
      rfl
    have hlen1 : i < (horizontal_split s).split_points.length := by
      rw [hpts1, hmod, List.length_map, List.length_set]
      exact hi
    obtain ⟨hpts2, _, _⟩ :=
      horizontal_split_expand (horizontal_split s) i hsel1
    have hmod2 : modifyAt (horizontal_split s).split_points i
        (toggle_horizontal (horizontal_split s).screen_size.1) =
        (horizontal_split s).split_points.set i
          { clipMap s.screen_size
            (s.split_points.set i
              { p with horizontal := some (0, s.screen_size.1) })
            { p with horizontal := some (0, s.screen_size.1) }
            with horizontal := none } := by
      unfold modifyAt
      rw [hel1]
      congr 1
    have hel2 : (horizontal_split (horizontal_split s)).split_points[i]? =
        some (clipMap (horizontal_split s).screen_size
          ((horizontal_split s).split_points.set i
            { clipMap s.screen_size
              (s.split_points.set i
                { p with horizontal := some (0, s.screen_size.1) })
              { p with horizontal := some (0, s.screen_size.1) }
              with horizontal := none })
          { clipMap s.screen_size
            (s.split_points.set i
              { p with horizontal := some (0, s.screen_size.1) })
            { p with horizontal := some (0, s.screen_size.1) }
            with horizontal := none }) := by
      rw [hpts2, hmod2, List.getElem?_map, List.getElem?_set_self hlen1]
      rfl
    exact ⟨_, hel2, rfl⟩
  · intro hV
    obtain ⟨hpts1, hsel1, _⟩ := vertical_split_expand s i hsel
    have hmod : modifyAt s.split_points i
        (toggle_vertical s.screen_size.2) =
        s.split_points.set i
          { p with vertical := some (0, s.screen_size.2) } := by
      unfold modifyAt
      rw [hp]
      show s.split_points.set i (toggle_vertical s.screen_size.2 p) =
        s.split_points.set i
          { p with vertical := some (0, s.screen_size.2) }
      unfold toggle_vertical
      rw [hV]
    have hel1 : (vertical_split s).split_points[i]? =
        some (clipMap s.screen_size
          (s.split_points.set i
            { p with vertical := some (0, s.screen_size.2) })
          { p with vertical := some (0, s.screen_size.2) }) := by
      rw [hpts1, hmod, List.getElem?_map, List.getElem?_set_self hi]
      rfl
    have hlen1 : i < (vertical_split s).split_points.length := by
      rw [hpts1, hmod, List.length_map, List.length_set]
      exact hi
    obtain ⟨hpts2, _, _⟩ :=
      vertical_split_expand (vertical_split s) i hsel1
    have hmod2 : modifyAt (vertical_split s).split_points i
        (toggle_vertical (vertical_split s).screen_size.2) =
        (vertical_split s).split_points.set i
          { clipMap s.screen_size
            (s.split_points.set i
              { p with vertical := some (0, s.screen_size.2) })
            { p with vertical := some (0, s.screen_size.2) }
            with vertical := none } := by
      unfold modifyAt
      rw [hel1]
      congr 1
    have hel2 : (vertical_split (vertical_split s)).split_points[i]? =
        some (clipMap (vertical_split s).screen_size
          ((vertical_split s).split_points.set i
            { clipMap s.screen_size
              (s.split_points.set i
                { p with vertical := some (0, s.screen_size.2) })
              { p with vertical := some (0, s.screen_size.2) }
              with vertical := none })
          { clipMap s.screen_size
            (s.split_points.set i
              { p with vertical := some (0, s.screen_size.2) })
            { p with vertical := some (0, s.screen_size.2) }
            with vertical := none }) := by
      rw [hpts2, hmod2, List.getElem?_map, List.getElem?_set_self hlen1]
      rfl
    exact ⟨_, hel2, rfl⟩

/-- C7 witness: toggling twice on a freshly placed point of a one-point
state leaves both axes without a cut. -/
theorem c7_toggle_twice_clears_witness :
    (∃ p2, ((horizontal_split (horizontal_split
      ⟨(100, 100), 5, [⟨(50, 50), none, none, 0⟩],
        some 0⟩)).split_points)[0]? = some p2 ∧ p2.horizontal = none) ∧
    (∃ p2, ((vertical_split (vertical_split
      ⟨(100, 100), 5, [⟨(50, 50), none, none, 0⟩],
        some 0⟩)).split_points)[0]? = some p2 ∧ p2.vertical = none) := by
  have h := c7_toggle_twice_clears
    ⟨(100, 100), 5, [⟨(50, 50), none, none, 0⟩], some 0⟩ 0
    ⟨(50, 50), none, none, 0⟩ rfl rfl
  exact ⟨h.1 rfl, h.2 rfl⟩

/-- C8: when no existing point lies within pick radius of the click
location, place-or-select appends a new point there and selects it, and an
immediately repeated place-or-select at the same location finds that very
point (first match of the scan) and changes nothing: no duplicate is
created. -/
theorem c8_place_then_select (s : SplitState) (q : Int × Int)
    (hmiss : ∀ p ∈ s.split_points, dist_le p q s.dot_radius = false)
    (hr : 0 ≤ s.dot_radius) :
    (add_point q s).split_points = s.split_points ++ [newPoint q] ∧
    (add_point q s).selected_point = some s.split_points.length ∧
    add_point q (add_point q s) = add_point q s := by
  have hf := findPoint_eq_none s.dot_radius q s.split_points hmiss
  have h1 : add_point q s =
      { s with split_points := s.split_points ++ [newPoint q]
               selected_point := some s.split_points.length } := by
    unfold add_point
    rw [hf]
  have hf2 : findPoint (add_point q s).dot_radius q
      (add_point q s).split_points = some s.split_points.length := by
    rw [h1]
    exact findPoint_append s.dot_radius q (newPoint q)
      (dist_le_newPoint q s.dot_radius hr) s.split_points hmiss
  refine ⟨by rw [h1], by rw [h1], ?_⟩
  rw [add_point_found (add_point q s) q s.split_points.length hf2]
  refine set_selected_self _ _ ?_
  rw [h1]

/-- C8 witness: placing on an empty canvas state and clicking again. -/
theorem c8_place_then_select_witness :
    (add_point (10, 10)
      (⟨(100, 100), 5, [], none⟩ : SplitState)).split_points =
      [] ++ [newPoint (10, 10)] ∧
    (add_point (10, 10)
      (⟨(100, 100), 5, [], none⟩ : SplitState)).selected_point =
      some (List.length ([] : List SplitPoint)) ∧
    add_point (10, 10) (add_point (10, 10)
      (⟨(100, 100), 5, [], none⟩ : SplitState)) =
      add_point (10, 10) (⟨(100, 100), 5, [], none⟩ : SplitState) :=
  c8_place_then_select ⟨(100, 100), 5, [], none⟩ (10, 10)
    (by intro p hp; exact absurd hp (List.not_mem_nil p)) (by decide)

/-- C9: deleting the point the scan finds first, when it is the selected
one, clears the selection, and every subsequent toggle or reprioritise
command is a no-op: it returns the state unchanged. -/
theorem c9_delete_selected_clears (s : SplitState) (q : Int × Int) (i : Nat)
    (hsel : s.selected_point = some i)
    (hfind : findPoint s.dot_radius q s.split_points = some i) :
    (delete_point q s).selected_point = none ∧
    horizontal_split (delete_point q s) = delete_point q s ∧
    vertical_split (delete_point q s) = delete_point q s ∧
    increment_index (delete_point q s) = delete_point q s ∧
    decrement_index (delete_point q s) = delete_point q s := by
  have h1 : (delete_point q s).selected_point = none := by
    unfold delete_point recompute
    rw [hfind, hsel]
    simp
  refine ⟨h1, ?_, ?_, ?_, ?_⟩
  · unfold horizontal_split
    rw [h1]
  · unfold vertical_split
    rw [h1]
  · unfold increment_index
    rw [h1]
  · unfold decrement_index
    rw [h1]

/-- C9 witness: a one-point state with that point selected; delete clicks
on it. -/
theorem c9_delete_selected_clears_witness :
    (delete_point (10, 10)
      (⟨(100, 100), 5, [⟨(10, 10), none, none, 0⟩], some 0⟩ :
        SplitState)).selected_point = none ∧
    horizontal_split (delete_point (10, 10)
      (⟨(100, 100), 5, [⟨(10, 10), none, none, 0⟩], some 0⟩ :
        SplitState)) =
      delete_point (10, 10)
        (⟨(100, 100), 5, [⟨(10, 10), none, none, 0⟩], some 0⟩ :
          SplitState) ∧
    vertical_split (delete_point (10, 10)
      (⟨(100, 100), 5, [⟨(10, 10), none, none, 0⟩], some 0⟩ :
        SplitState)) =
      delete_point (10, 10)
        (⟨(100, 100), 5, [⟨(10, 10), none, none, 0⟩], some 0⟩ :
          SplitState) ∧
    increment_index (delete_point (10, 10)
      (⟨(100, 100), 5, [⟨(10, 10), none, none, 0⟩], some 0⟩ :
        SplitState)) =
      delete_point (10, 10)
        (⟨(100, 100), 5, [⟨(10, 10), none, none, 0⟩], some 0⟩ :
          SplitState) ∧
    decrement_index (delete_point (10, 10)
      (⟨(100, 100), 5, [⟨(10, 10), none, none, 0⟩], some 0⟩ :
        SplitState)) =
      delete_point (10, 10)
        (⟨(100, 100), 5, [⟨(10, 10), none, none, 0⟩], some 0⟩ :
          SplitState) :=
  c9_delete_selected_clears
    ⟨(100, 100), 5, [⟨(10, 10), none, none, 0⟩], some 0⟩ (10, 10) 0 rfl
    (by decide)
